import Mathlib

/-!
Verification of `versions/2020/transformer/code/transformer-mnist.py`.

The script under study is a single-file PyTorch MNIST example: a metrics
aggregator (`AverageMeter`, imported from the repo's `ui.py`), a small CNN
(`CNNModel`), a training loop (`train`), an evaluation loop (`test`), a
checkpoint-on-best epoch loop in `main`, and a kernel/feature-map
visualization (`viz_features`, `plot_data`).

Modelling conventions:
* Python floats are embedded as exact rationals (`ℚ`); tensors of scores are
  `List ℚ`, convolution weights are nested lists indexed in the framework's
  `[outChannel][inChannel][kh][kw]` layout.
* The neural-network framework (forward passes, autodiff, optimizer) is an
  external collaborator; it is abstracted as a `Model` record whose fields
  are arbitrary functions, so every theorem below quantifies over all
  possible model behaviours.  The loops, counters and conditionals are
  translated from the script itself.
* Fallible operations (checkpoint restore, division whose divisor can be
  zero) return `Option`.
-/

namespace MNIST

/-- Modelled from the spec: `AverageMeter` lives in `ui.py`, which is not among
the provided sources (only this script, its caller, is).  Per spec §4.1 and §3,
the running metric is a (sum, count) pair: `update(value, n)` folds `value`
weighted by `n` into the running sum and count, and `average = sum / count`. -/
structure AverageMeter where
  sum : ℚ
  count : ℚ
  deriving DecidableEq, Repr

/-- A fresh meter, as constructed at the top of `train` and `test`. -/
def AverageMeter.mk0 : AverageMeter := ⟨0, 0⟩

/-- One `update(value, n)` call on the meter. -/
def AverageMeter.update (m : AverageMeter) (v : ℚ) (n : ℚ) : AverageMeter :=
  ⟨m.sum + v * n, m.count + n⟩

/-- The `average` property of the meter: `sum / count`. -/
def AverageMeter.avg (m : AverageMeter) : ℚ := m.sum / m.count

/-- A whole sequence of `update` calls, first call first. -/
def applyUpdates (m : AverageMeter) (us : List (ℚ × ℚ)) : AverageMeter :=
  us.foldl (fun acc u => acc.update u.1 u.2) m

lemma applyUpdates_sum (us : List (ℚ × ℚ)) (m : AverageMeter) :
    (applyUpdates m us).sum = m.sum + (us.map (fun u => u.1 * u.2)).sum := by
  induction us generalizing m with
  | nil => simp [applyUpdates]
  | cons u t ih =>
      simp only [applyUpdates, List.foldl_cons, List.map_cons, List.sum_cons] at *
      rw [ih]
      simp [AverageMeter.update]
      ring

lemma applyUpdates_count (us : List (ℚ × ℚ)) (m : AverageMeter) :
    (applyUpdates m us).count = m.count + (us.map (fun u => u.2)).sum := by
  induction us generalizing m with
  | nil => simp [applyUpdates]
  | cons u t ih =>
      simp only [applyUpdates, List.foldl_cons, List.map_cons, List.sum_cons] at *
      rw [ih]
      simp [AverageMeter.update]
      ring

/-- Claim C1: for every sequence of calls `update(v_1, n_1), ..., update(v_k, n_k)`
(`k ≥ 1`) on a fresh `AverageMeter`, the value read as `average` equals the
weighted mean `Σ (v_i * n_i) / Σ n_i`. -/
theorem averageMeter_weighted_mean (us : List (ℚ × ℚ)) (h : us ≠ []) :
    (applyUpdates AverageMeter.mk0 us).avg =
      (us.map (fun u => u.1 * u.2)).sum / (us.map (fun u => u.2)).sum := by
  have hs := applyUpdates_sum us AverageMeter.mk0
  have hc := applyUpdates_count us AverageMeter.mk0
  simp [AverageMeter.mk0] at hs hc
  simp only [AverageMeter.avg, AverageMeter.mk0]
  rw [hs, hc]

/-- Witness for C1: the concrete sequence `update(3, 2); update(5, 1)`. -/
theorem averageMeter_weighted_mean_witness :
    (applyUpdates AverageMeter.mk0 [(3, 2), (5, 1)]).avg =
      (([((3 : ℚ), (2 : ℚ)), (5, 1)]).map (fun u => u.1 * u.2)).sum /
        (([((3 : ℚ), (2 : ℚ)), (5, 1)]).map (fun u => u.2)).sum :=
  averageMeter_weighted_mean [(3, 2), (5, 1)] (by decide)

/-!
The classifier model and the framework glue (forward pass, `loss.backward()`
plus `optimizer.step()`, dropout randomness) are external collaborators of the
script.  They are abstracted as an arbitrary record of functions: `fwdTrain`
is the forward pass in training mode (it may consume the random state, e.g.
for dropout), `fwdEval` is the forward pass in evaluation mode (after
`model.eval()`, dropout disabled, hence no random state), `optStep` is the
`zero_grad`/`backward`/`step` composite that produces the updated parameters,
and `lossVal` is the scalar cross-entropy value fed to the losses meter.
Every theorem about the loops quantifies over all such records.
-/

/-- Abstract classifier model over parameter type `P` and input type `I`. -/
structure Model (P I : Type) where
  fwdEval : P → I → List ℚ
  fwdTrain : P → Nat → I → List ℚ
  rngNext : Nat → Nat
  optStep : P → List (I × Nat) → P
  lossVal : P → List (I × Nat) → ℚ

/-- Model used by the concrete witnesses: parameters are a rational, inputs
are naturals, the training-mode forward pass scores class 0 iff the input
is 0. -/
def demoModel : Model ℚ Nat :=
  ⟨fun p i => [p + i, p],
   fun _ _ i => [if i == 0 then 1 else 0, if i == 0 then 0 else 1],
   fun r => r + 1,
   fun p _ => p + 1,
   fun _ _ => 1⟩

/-- Index of the first maximal score, the semantics of
`_, predicted = outputs.max(1)` for one row of logits. -/
def argmaxAux : List ℚ → Nat → Nat → ℚ → Nat
  | [], _, bi, _ => bi
  | x :: t, i, bi, bv => if bv < x then argmaxAux t (i + 1) i x else argmaxAux t (i + 1) bi bv

/-- Argmax of a score vector (0 on the empty vector). -/
def argmax : List ℚ → Nat
  | [] => 0
  | x :: t => argmaxAux t 1 0 x

/-- Number of samples of a batch whose predicted class equals the label:
`predicted.eq(labels).sum().item()`. -/
def batchMatches (preds labels : List Nat) : Nat :=
  (preds.zip labels).countP (fun pr => pr.1 == pr.2)

/-- The per-batch state of `train`: the model parameters and random state
(mutated by the optimizer step / consumed by the training-mode forward), and
the counters `total`, `correct` and the `losses` meter of the script. -/
structure TrainState (P : Type) where
  params : P
  rng : Nat
  total : Nat
  correct : Nat
  losses : AverageMeter

/-- Initial state of one `train` epoch: counters at zero, fresh meter. -/
def TrainState.start (params : P) (rng : Nat) : TrainState P :=
  ⟨params, rng, 0, 0, AverageMeter.mk0⟩

/-- One iteration of the `for i, data in enumerate(train_loader)` body:
forward pass on the current parameters, optimizer step, `losses.update(loss)`,
`total += labels.size(0)`, `correct += predicted.eq(labels).sum().item()`. -/
def trainStep (M : Model P I) (st : TrainState P) (batch : List (I × Nat)) : TrainState P :=
  ⟨M.optStep st.params batch,
   M.rngNext st.rng,
   st.total + batch.length,
   st.correct + batchMatches (batch.map (fun s => argmax (M.fwdTrain st.params st.rng s.1)))
       (batch.map Prod.snd),
   st.losses.update (M.lossVal st.params batch) 1⟩

/-- The state after the first `n` batches of the epoch. -/
def trainAfter (M : Model P I) (params : P) (rng : Nat)
    (batches : List (List (I × Nat))) (n : Nat) : TrainState P :=
  (batches.take n).foldl (trainStep M) (TrainState.start params rng)

/-- The running accuracy the loop computes after a batch:
`acc = correct * 100. / total`. -/
def TrainState.acc (st : TrainState P) : ℚ := st.correct * 100 / st.total

/-- Total number of argmax-equals-label samples over a list of batches,
recomputed independently of the loop's `correct` counter by replaying the
parameter/random-state trajectory. -/
def sumMatches (M : Model P I) (params : P) (rng : Nat) : List (List (I × Nat)) → Nat
  | [] => 0
  | b :: bs =>
      batchMatches (b.map (fun s => argmax (M.fwdTrain params rng s.1))) (b.map Prod.snd) +
        sumMatches M (M.optStep params b) (M.rngNext rng) bs

lemma trainFold_total (M : Model P I) (bs : List (List (I × Nat))) (st : TrainState P) :
    (bs.foldl (trainStep M) st).total = st.total + (bs.map List.length).sum := by
  induction bs generalizing st with
  | nil => simp
  | cons b t ih =>
      simp only [List.foldl_cons, List.map_cons, List.sum_cons, ih]
      simp [trainStep]
      ring

lemma trainFold_correct (M : Model P I) (bs : List (List (I × Nat))) (st : TrainState P) :
    (bs.foldl (trainStep M) st).correct = st.correct + sumMatches M st.params st.rng bs := by
  induction bs generalizing st with
  | nil => simp [sumMatches]
  | cons b t ih =>
      simp only [List.foldl_cons, ih, sumMatches, trainStep]
      ring

/-- Claim C2: after `N ≥ 1` batches, each of size `B`, the loop's counters
satisfy `total = N * B`, and the running top-1 accuracy figure
`acc = correct * 100. / total` that the loop reports (a percentage) equals
`100 * correct_count / (N * B)` — equivalently, the fraction it denotes,
`acc / 100`, equals `correct_count / (N * B)` — where `correct_count` is the
independently recomputed number of samples among those `N` batches whose
predicted class (argmax of the logits) equals the label. -/
theorem train_running_top1 (M : Model P I) (params : P) (rng : Nat)
    (batches : List (List (I × Nat))) (N B : Nat)
    (hN : 1 ≤ N) (hNlen : N ≤ batches.length)
    (hB : ∀ b ∈ batches.take N, b.length = B) :
    (trainAfter M params rng batches N).total = N * B ∧
    (trainAfter M params rng batches N).acc =
      100 * (sumMatches M params rng (batches.take N) : ℚ) / (N * B) ∧
    (trainAfter M params rng batches N).acc / 100 =
      (sumMatches M params rng (batches.take N) : ℚ) / (N * B) := by
  have htot : (trainAfter M params rng batches N).total = N * B := by
    have h1 := trainFold_total M (batches.take N) (TrainState.start params rng)
    have hmap : (batches.take N).map List.length = List.replicate N B := by
      apply List.eq_replicate_iff.mpr
      refine ⟨by simp [Nat.min_eq_left hNlen], ?_⟩
      intro x hx
      rcases List.mem_map.mp hx with ⟨b, hb, hxb⟩
      exact hxb ▸ hB b hb
    rw [trainAfter, h1, hmap]
    simp [TrainState.start, List.sum_replicate, Nat.mul_comm]
  have hcor : (trainAfter M params rng batches N).correct =
      sumMatches M params rng (batches.take N) := by
    have h2 := trainFold_correct M (batches.take N) (TrainState.start params rng)
    simpa [trainAfter, TrainState.start] using h2
  refine ⟨htot, ?_, ?_⟩
  · rw [TrainState.acc, htot, hcor]
    push_cast
    ring
  · rw [TrainState.acc, htot, hcor]
    rcases Nat.eq_zero_or_pos B with hB0 | hB0
    · simp [hB0]
    · have hNq : ((N : ℚ)) ≠ 0 := by positivity
      have hBq : ((B : ℚ)) ≠ 0 := by positivity
      field_simp
      ring

/-!
The evaluation loop `test`.  `accuracy` is imported from the repo's `ui.py`,
which is not among the provided sources, so it is modelled from the spec.
-/

/-- Modelled from the spec: per the glossary, top-k accuracy is the fraction
of samples whose true label appears among the k highest-scored classes.  A
sample is in the top k when fewer than `k` classes score strictly above the
label's score (tie-breaking is immaterial to the claims below). -/
def inTopK (k : Nat) (scores : List ℚ) (label : Nat) : Bool :=
  decide (scores.countP (fun s => decide (scores.getD label 0 < s)) < k)

/-- Number of samples of a batch whose label is in the top k. -/
def topkCount (k : Nat) (outs : List (List ℚ)) (labels : List Nat) : Nat :=
  (outs.zip labels).countP (fun p => inTopK k p.1 p.2)

/-- Modelled from the spec: `accuracy(outputs, labels, (1, 5))` from `ui.py`
returns, for each k, the batch's top-k accuracy as a percentage of the batch
size (the script formats it with `%0.2f%%`). -/
def accuracy (k : Nat) (outs : List (List ℚ)) (labels : List Nat) : ℚ :=
  100 * (topkCount k outs labels : ℚ) / (labels.length : ℚ)

/-- One iteration of the `for i, data in enumerate(test_loader)` body under
`torch.no_grad()`: an evaluation-mode forward pass on the current parameters,
then `top1.update(acc1[0], inputs.size(0))` and
`top5.update(acc5[0], inputs.size(0))`.  The state carries the two meters and
the (untouched) parameters and random state. -/
def testStep (M : Model P I) (st : (AverageMeter × AverageMeter) × P × Nat)
    (batch : List (I × Nat)) : (AverageMeter × AverageMeter) × P × Nat :=
  let outs := batch.map (fun s => M.fwdEval st.2.1 s.1)
  let labels := batch.map Prod.snd
  ((st.1.1.update (accuracy 1 outs labels) batch.length,
    st.1.2.update (accuracy 5 outs labels) batch.length), st.2)

/-- The whole `test` function: `model.eval()`, fresh meters, the loop, and the
returned `(top1.avg, top5.avg)`; the final parameters and random state are
exposed so that their non-mutation can be stated. -/
def testRun (M : Model P I) (params : P) (rng : Nat)
    (data : List (List (I × Nat))) : (ℚ × ℚ) × P × Nat :=
  let st := data.foldl (testStep M) ((AverageMeter.mk0, AverageMeter.mk0), params, rng)
  ((st.1.1.avg, st.1.2.avg), st.2)

lemma testFold_snd (M : Model P I) (data : List (List (I × Nat)))
    (ms : AverageMeter × AverageMeter) (pr : P × Nat) :
    (data.foldl (testStep M) (ms, pr)).2 = pr := by
  induction data generalizing ms with
  | nil => rfl
  | cons b t ih => simpa [testStep] using ih _

lemma testFold_rng_irrelevant (M : Model P I) (data : List (List (I × Nat)))
    (ms : AverageMeter × AverageMeter) (p : P) (r1 r2 : Nat) :
    (data.foldl (testStep M) (ms, p, r1)).1 = (data.foldl (testStep M) (ms, p, r2)).1 := by
  induction data generalizing ms with
  | nil => rfl
  | cons b t ih => simpa [testStep] using ih _

/-- Claim C4: the evaluation loop is a pure, deterministic function of the
model parameters, the dataset and the eval-mode forward pass: its
`(top1, top5)` result does not depend on the ambient random state, and the run
returns the model parameters and random state unchanged (the loop runs under
`torch.no_grad()` and performs no optimizer step).  Determinism of two runs on
identical inputs is the reflexive instance of this equation. -/
theorem test_pure (M : Model P I) (params : P) (data : List (List (I × Nat)))
    (r1 r2 : Nat) :
    (testRun M params r1 data).1 = (testRun M params r2 data).1 ∧
    (testRun M params r1 data).2 = (params, r1) := by
  constructor
  · have h := testFold_rng_irrelevant M data (AverageMeter.mk0, AverageMeter.mk0) params r1 r2
    simp only [testRun, h]
  · simp only [testRun, testFold_snd]

/-- Per-sample top-k correct count over the whole evaluation set, for the
evaluation-mode forward pass at fixed parameters. -/
def totalTopk (M : Model P I) (params : P) (k : Nat)
    (data : List (List (I × Nat))) : Nat :=
  (data.map (fun b =>
    topkCount k (b.map (fun s => M.fwdEval params s.1)) (b.map Prod.snd))).sum

/-- Total number of samples of the evaluation set. -/
def totalSamples (data : List (List (I × Nat))) : Nat :=
  (data.map List.length).sum

lemma AverageMeter.update_sum (m : AverageMeter) (v n : ℚ) :
    (m.update v n).sum = m.sum + v * n := rfl

lemma AverageMeter.update_count (m : AverageMeter) (v n : ℚ) :
    (m.update v n).count = m.count + n := rfl

lemma totalTopk_cons (M : Model P I) (p : P) (k : Nat) (b : List (I × Nat))
    (t : List (List (I × Nat))) :
    totalTopk M p k (b :: t) =
      topkCount k (b.map (fun s => M.fwdEval p s.1)) (b.map Prod.snd) +
        totalTopk M p k t := by
  simp [totalTopk]

lemma totalSamples_cons (b : List (I × Nat)) (t : List (List (I × Nat))) :
    totalSamples (b :: t) = b.length + totalSamples t := by
  simp [totalSamples]

lemma testFold_meters (M : Model P I) (data : List (List (I × Nat)))
    (ms : AverageMeter × AverageMeter) (p : P) (r : Nat)
    (hne : ∀ b ∈ data, b ≠ []) :
    ((data.foldl (testStep M) (ms, p, r)).1.1.sum =
        ms.1.sum + 100 * totalTopk M p 1 data ∧
      (data.foldl (testStep M) (ms, p, r)).1.1.count =
        ms.1.count + totalSamples data) ∧
    ((data.foldl (testStep M) (ms, p, r)).1.2.sum =
        ms.2.sum + 100 * totalTopk M p 5 data ∧
      (data.foldl (testStep M) (ms, p, r)).1.2.count =
        ms.2.count + totalSamples data) := by
  induction data generalizing ms with
  | nil => simp [totalTopk, totalSamples]
  | cons b t ih =>
      have hb : b ≠ [] := hne b (List.mem_cons_self b t)
      have hbt : ∀ x ∈ t, x ≠ [] := fun x hx => hne x (List.mem_cons_of_mem b hx)
      have hlenb : ((b.length : ℚ)) ≠ 0 := by
        have hz : b.length ≠ 0 := fun hc => hb (List.eq_nil_of_length_eq_zero hc)
        exact_mod_cast Nat.cast_ne_zero.mpr hz
      have hacc : ∀ k, accuracy k (b.map (fun s => M.fwdEval p s.1)) (b.map Prod.snd) *
          (b.length : ℚ) =
          100 * (topkCount k (b.map (fun s => M.fwdEval p s.1)) (b.map Prod.snd) : ℚ) := by
        intro k
        rw [accuracy, List.length_map, div_mul_cancel₀ _ hlenb]
      rcases ih (ms.1.update
            (accuracy 1 (b.map (fun s => M.fwdEval p s.1)) (b.map Prod.snd)) b.length,
          ms.2.update
            (accuracy 5 (b.map (fun s => M.fwdEval p s.1)) (b.map Prod.snd)) b.length) hbt
        with ⟨⟨h11, h12⟩, h21, h22⟩
      simp only [List.foldl_cons, testStep]
      refine ⟨⟨?_, ?_⟩, ?_, ?_⟩
      · rw [h11, AverageMeter.update_sum, totalTopk_cons, hacc 1]
        push_cast
        ring
      · rw [h12, AverageMeter.update_count, totalSamples_cons]
        push_cast
        ring
      · rw [h21, AverageMeter.update_sum, totalTopk_cons, hacc 5]
        push_cast
        ring
      · rw [h22, AverageMeter.update_count, totalSamples_cons]
        push_cast
        ring

/-- Claim C8: the evaluation loop weights each batch's top-1/top-5 accuracy by
that batch's actual number of samples when folding into the meters, so, as long
as every batch is nonempty (the final one may be smaller than the configured
batch size), the returned `(top1, top5)` equal the per-sample accuracy
percentages over the entire evaluation set:
`100 * totalCorrect / totalSamples`. -/
theorem test_batch_weighted (M : Model P I) (params : P) (rng : Nat)
    (data : List (List (I × Nat))) (hne : ∀ b ∈ data, b ≠ []) :
    (testRun M params rng data).1.1 =
      100 * (totalTopk M params 1 data : ℚ) / (totalSamples data : ℚ) ∧
    (testRun M params rng data).1.2 =
      100 * (totalTopk M params 5 data : ℚ) / (totalSamples data : ℚ) := by
  have h := testFold_meters M data (AverageMeter.mk0, AverageMeter.mk0) params rng hne
  constructor
  · simp only [testRun, AverageMeter.avg]
    rw [h.1.1, h.1.2]
    simp [AverageMeter.mk0]
  · simp only [testRun, AverageMeter.avg]
    rw [h.2.1, h.2.2]
    simp [AverageMeter.mk0]

/-- Witness for C8: two batches of different sizes (2 then 1) on the demo
model. -/
theorem test_batch_weighted_witness :
    (testRun demoModel 1 0 [[(0, 0), (1, 1)], [(2, 0)]]).1.1 =
      100 * (totalTopk demoModel 1 1 [[(0, 0), (1, 1)], [(2, 0)]] : ℚ) /
        (totalSamples [[((0 : Nat), (0 : Nat)), (1, 1)], [(2, 0)]] : ℚ) ∧
    (testRun demoModel 1 0 [[(0, 0), (1, 1)], [(2, 0)]]).1.2 =
      100 * (totalTopk demoModel 1 5 [[(0, 0), (1, 1)], [(2, 0)]] : ℚ) /
        (totalSamples [[((0 : Nat), (0 : Nat)), (1, 1)], [(2, 0)]] : ℚ) :=
  test_batch_weighted demoModel 1 0 [[(0, 0), (1, 1)], [(2, 0)]] (by decide)

/-- Witness for C2: one batch of one sample, input 0 labelled 0; the prediction
matches, so the reported figure is `100 * 1 / 1` and the denoted fraction 1. -/
theorem train_running_top1_witness :
    (trainAfter demoModel 0 0 [[(0, 0)]] 1).total = 1 * 1 ∧
    (trainAfter demoModel 0 0 [[(0, 0)]] 1).acc =
      100 * (sumMatches demoModel 0 0 ([[(0, 0)]].take 1) : ℚ) / (1 * 1) ∧
    (trainAfter demoModel 0 0 [[(0, 0)]] 1).acc / 100 =
      (sumMatches demoModel 0 0 ([[(0, 0)]].take 1) : ℚ) / (1 * 1) :=
  train_running_top1 demoModel 0 0 [[(0, 0)]] 1 1 (by decide) (by decide)
    (by intro b hb; simp at hb; simp [hb])

/-!
Checkpointing.  `torch.save(model.state_dict(), filename)` and
`model.load_state_dict(torch.load(path))` belong to the external framework.
-/

/-- Modelled from the spec: `torch.save` is not part of the repository sources;
per spec §4.5 it serializes the full parameter snapshot to `path`, overwriting
any existing file.  The filesystem is a map from path to stored snapshot. -/
def save (fs : String → Option P) (p : P) (path : String) : String → Option P :=
  fun q => if q = path then some p else fs q

/-- Modelled from the spec: `torch.load` plus `load_state_dict` deserializes a
snapshot previously written by `save`, failing (`none`) when the file is
absent. -/
def restore (fs : String → Option P) (path : String) : Option P := fs path

/-- Claim C3: restoring the checkpoint written by `save(p, path)` yields
exactly `p`; consequently a fresh model of the same variant and shape whose
parameters `pB` are loaded from that checkpoint evaluates to the identical
`(top1, top5)` as the saved parameters do. -/
theorem checkpoint_roundtrip (M : Model P I) (fs : String → Option P)
    (p pB : P) (path : String) (rng : Nat) (data : List (List (I × Nat)))
    (h : restore (save fs p path) path = some pB) :
    pB = p ∧ (testRun M pB rng data).1 = (testRun M p rng data).1 := by
  simp [restore, save] at h
  subst h
  exact ⟨rfl, rfl⟩

/-- Witness for C3: a concrete snapshot (the rational 5) saved at path "m" on
an empty filesystem, restored into the demo model. -/
theorem checkpoint_roundtrip_witness :
    (5 : ℚ) = 5 ∧
    (testRun demoModel 5 0 [[(0, 0)]]).1 = (testRun demoModel 5 0 [[(0, 0)]]).1 :=
  checkpoint_roundtrip demoModel (fun _ => none) 5 5 "m" 0 [[(0, 0)]] rfl

/-!
The epoch loop of `main`: each epoch's `train` call returns `(top1, top5)`;
`main` keeps a best-result record and writes a checkpoint on strict
improvement, when `--save-model` is given.  The per-epoch results depend on
training, so the loop is quantified over an arbitrary result sequence.  The
state additionally logs every checkpoint write and every best-record update,
together with the best top1 in force just before the event, so that the claims
can inspect the run's history.
-/

/-- One logged event: the epoch's `(top1, top5)` and the previous best top1. -/
structure BestEvent where
  top1 : ℚ
  top5 : ℚ
  prevBest : ℚ
  deriving DecidableEq, Repr

/-- The state of `main`'s epoch loop: `best_top1`, `best_top5`, the log of
checkpoint writes and the log of best-record updates. -/
structure BestState where
  bestTop1 : ℚ
  bestTop5 : ℚ
  saveLog : List BestEvent
  updateLog : List BestEvent
  deriving DecidableEq, Repr

/-- One epoch of `main`'s loop body:
`if top1 > best_top1: best_top1 = top1; best_top5 = top5;
 if args.save_model: torch.save(...)`. -/
def epochStep (saveModel : Bool) (st : BestState) (r : ℚ × ℚ) : BestState :=
  if st.bestTop1 < r.1 then
    ⟨r.1, r.2,
     if saveModel then st.saveLog ++ [⟨r.1, r.2, st.bestTop1⟩] else st.saveLog,
     st.updateLog ++ [⟨r.1, r.2, st.bestTop1⟩]⟩
  else st

/-- The whole `for epoch in range(1, args.epochs + 1)` loop over a sequence of
per-epoch `(top1, top5)` results. -/
def runEpochs (saveModel : Bool) (st : BestState) (rs : List (ℚ × ℚ)) : BestState :=
  rs.foldl (epochStep saveModel) st

/-- Strict-improvement check on a logged event, as a boolean. -/
def BestEvent.strict (e : BestEvent) : Bool := decide (e.prevBest < e.top1)

lemma runEpochs_strict (saveModel : Bool) (rs : List (ℚ × ℚ)) (st : BestState)
    (hs : st.saveLog.all BestEvent.strict = true)
    (hu : st.updateLog.all BestEvent.strict = true) :
    (runEpochs saveModel st rs).saveLog.all BestEvent.strict = true ∧
      (runEpochs saveModel st rs).updateLog.all BestEvent.strict = true := by
  induction rs generalizing st with
  | nil => exact ⟨hs, hu⟩
  | cons r t ih =>
      simp only [runEpochs, List.foldl_cons]
      by_cases hlt : st.bestTop1 < r.1
      · apply ih
        · simp only [epochStep, if_pos hlt]
          by_cases hsm : saveModel
          · simp only [if_pos hsm, List.all_append, hs, List.all_cons, List.all_nil,
              Bool.and_true, Bool.true_and, BestEvent.strict]
            exact decide_eq_true hlt
          · simpa [hsm] using hs
        · simp only [epochStep, if_pos hlt, List.all_append, hu, List.all_cons, List.all_nil,
            Bool.and_true, Bool.true_and, BestEvent.strict]
          exact decide_eq_true hlt
      · simpa only [epochStep, if_neg hlt] using ih st hs hu

/-- Claim C6: in every run of `main`'s epoch loop, from any initial best
record and over any sequence of per-epoch results, every checkpoint write
happens in an epoch whose top1 strictly exceeds the best top1 in force just
before it (so no write ever happens when top1 is less than or equal to the
recorded best), and the best-result record is updated only on such strict
improvement. -/
theorem checkpoint_only_on_strict_improvement (saveModel : Bool) (b1 b5 : ℚ)
    (rs : List (ℚ × ℚ)) :
    (runEpochs saveModel ⟨b1, b5, [], []⟩ rs).saveLog.all BestEvent.strict = true ∧
      (runEpochs saveModel ⟨b1, b5, [], []⟩ rs).updateLog.all BestEvent.strict = true :=
  runEpochs_strict saveModel rs ⟨b1, b5, [], []⟩ rfl rfl

lemma runEpochs_top1_mono (saveModel : Bool) (rs : List (ℚ × ℚ)) (st : BestState)
    (hp : (st.updateLog.map BestEvent.top1).Pairwise (· < ·))
    (hb : ∀ e ∈ st.updateLog, e.top1 ≤ st.bestTop1) :
    ((runEpochs saveModel st rs).updateLog.map BestEvent.top1).Pairwise (· < ·) := by
  induction rs generalizing st with
  | nil => exact hp
  | cons r t ih =>
      simp only [runEpochs, List.foldl_cons]
      by_cases hlt : st.bestTop1 < r.1
      · apply ih
        · simp only [epochStep, if_pos hlt, List.map_append, List.map_cons, List.map_nil]
          refine List.pairwise_append.mpr ⟨hp, List.pairwise_singleton _ _, ?_⟩
          intro x hx y hy
          simp only [List.mem_singleton] at hy
          rcases List.mem_map.mp hx with ⟨e, he, hxe⟩
          exact hy ▸ hxe ▸ lt_of_le_of_lt (hb e he) hlt
        · intro e he
          simp only [epochStep, if_pos hlt] at he ⊢
          simp only [List.mem_append, List.mem_singleton] at he
          rcases he with he | he
          · exact le_of_lt (lt_of_le_of_lt (hb e he) hlt)
          · simp [he]
      · simpa only [epochStep, if_neg hlt] using ih st hp hb

/-- Claim C9: over any run from a fresh log, the top1 components of the
best-record updates are strictly increasing (so the recorded best top1 never
decreases across epochs); the recorded top5, however, is overwritten by the
top5 of whichever epoch improved top1, and the concrete run with epoch results
`(10, 90)` then `(20, 50)` ends with recorded top5 = 50 although top5 = 90 was
observed (and recorded) at the earlier epoch. -/
theorem best_record_top1_increasing_top5_not :
    (∀ (saveModel : Bool) (b1 b5 : ℚ) (rs : List (ℚ × ℚ)),
      ((runEpochs saveModel ⟨b1, b5, [], []⟩ rs).updateLog.map
          BestEvent.top1).Pairwise (· < ·)) ∧
    (runEpochs true ⟨0, 0, [], []⟩ [(10, 90), (20, 50)]).bestTop5 = 50 ∧
    (runEpochs true ⟨0, 0, [], []⟩ [(10, 90), (20, 50)]).updateLog.map
        BestEvent.top5 = [90, 50] ∧
    (runEpochs true ⟨0, 0, [], []⟩ [(10, 90), (20, 50)]).bestTop5 < 90 := by
  refine ⟨fun saveModel b1 b5 rs =>
    runEpochs_top1_mono saveModel rs ⟨b1, b5, [], []⟩ (by simp) (by simp), ?_, ?_, ?_⟩
  · decide
  · decide
  · decide

/-!
The convolutional model variant.  `CNNModel.classifier` is the
`nn.Sequential` of the script; `Layer.outShape` gives the framework's
documented per-sample shape semantics of each layer kind used there
(`Conv2d` with stride 1 and no padding, `MaxPool2d(k)` with stride `k`,
`Linear` requiring its exact input width, `ReLU`/`Dropout` shape-preserving,
`Flatten` collapsing the non-batch dimensions), failing fast on mismatch.
-/

/-- The layer kinds appearing in `CNNModel`. -/
inductive Layer where
  | conv2d (inC outC k : Nat)
  | relu
  | maxPool2d (k : Nat)
  | dropout (p : ℚ)
  | flatten
  | linear (inF outF : Nat)
  deriving DecidableEq, Repr

/-- Per-sample tensor shape: channel×height×width features, or a flat vector. -/
inductive Shape where
  | img (c h w : Nat)
  | flat (n : Nat)
  deriving DecidableEq, Repr

/-- Shape semantics of one layer on one sample; `none` is the fail-fast shape
mismatch. -/
def Layer.outShape : Layer → Shape → Option Shape
  | .conv2d ic oc k, .img c h w =>
      if c = ic ∧ k ≤ h ∧ k ≤ w then some (.img oc (h - k + 1) (w - k + 1)) else none
  | .relu, s => some s
  | .maxPool2d k, .img c h w =>
      if 1 ≤ k ∧ k ≤ h ∧ k ≤ w then some (.img c (h / k) (w / k)) else none
  | .dropout _, s => some s
  | .flatten, .img c h w => some (.flat (c * h * w))
  | .flatten, .flat n => some (.flat n)
  | .linear i o, .flat n => if n = i then some (.flat o) else none
  | _, _ => none

/-- The `nn.Sequential` of `CNNModel.__init__` (`n_classes = 10`). -/
def CNNModel.classifier : List Layer :=
  [.conv2d 1 64 3, .relu, .maxPool2d 2,
   .conv2d 64 64 3, .relu, .maxPool2d 2,
   .conv2d 64 64 3, .dropout (2 / 10), .flatten,
   .linear (64 * 3 * 3) 10]

/-- Shape of the output of a stack of layers on one sample. -/
def forwardShape (layers : List Layer) (s : Shape) : Option Shape :=
  layers.foldl (fun os l => os.bind l.outShape) (some s)

/-- Shape of the output on a batch of `n` identically shaped samples; the
batch dimension passes through every layer above. -/
def batchForwardShape (layers : List Layer) (n : Nat) (s : Shape) : Option (Nat × Shape) :=
  (forwardShape layers s).map (fun t => (n, t))

/-- Does every convolution of the stack have an activation anywhere after
it?  (The claim's "each convolution followed by an activation".) -/
def activationAfterEachConv : List Layer → Bool
  | [] => true
  | Layer.conv2d _ _ _ :: t =>
      t.any (fun l => decide (l = Layer.relu)) && activationAfterEachConv t
  | _ :: t => activationAfterEachConv t

/-- Claim C5, counterexample: it is not the case that each convolution of
`CNNModel` is followed by an activation — the third convolution is followed
only by dropout, flatten and the linear head, with no activation anywhere
after it. -/
theorem cnn_third_conv_has_no_activation :
    activationAfterEachConv CNNModel.classifier = false := by decide

/-- The amended architecture pattern: three convolutions, the first two each
immediately followed by an activation and a pooling, the third followed by
dropout (no activation) before flattening, and a single linear projection. -/
def cnnStagePattern : List Layer → Bool
  | [Layer.conv2d _ _ _, Layer.relu, Layer.maxPool2d _,
     Layer.conv2d _ _ _, Layer.relu, Layer.maxPool2d _,
     Layer.conv2d _ _ _, Layer.dropout _, Layer.flatten, Layer.linear _ _] => true
  | _ => false

/-- Claim C5, amended: `CNNModel` consists of three convolutional stages where
the first two convolutions are each followed by an activation and pooling and
the third convolution is followed by dropout (with no activation) before
flattening and a single linear projection to the class scores; its forward
pass on any batch of shape `(K, 1, 28, 28)` with `K ≥ 1` returns logits of
shape `(K, 10)`. -/
theorem cnn_structure_and_shape :
    cnnStagePattern CNNModel.classifier = true ∧
    ∀ K : Nat, 1 ≤ K →
      batchForwardShape CNNModel.classifier K (Shape.img 1 28 28) =
        some (K, Shape.flat 10) := by
  refine ⟨by decide, ?_⟩
  intro K hK
  have hf : forwardShape CNNModel.classifier (Shape.img 1 28 28) =
      some (Shape.flat 10) := by decide
  simp [batchForwardShape, hf]

/-- Witness for C5 (amended): a batch of 2 images. -/
theorem cnn_structure_and_shape_witness :
    cnnStagePattern CNNModel.classifier = true ∧
    batchForwardShape CNNModel.classifier 2 (Shape.img 1 28 28) =
      some (2, Shape.flat 10) :=
  ⟨(cnn_structure_and_shape).1, (cnn_structure_and_shape).2 2 (by decide)⟩

/-!
The visualization routine `viz_features`.  It collects `layer.weight` for
every `Conv2d` module, in order, and for each captured layer grids
`kernel[:, args.feature_num, :, :]`.  A `Conv2d` weight has the framework
layout `[outChannel][inChannel][kh][kw]`, so the second index — the one the
script fixes — is the input-channel index.
-/

/-- One 2-D kernel slice (`kh × kw` rationals). -/
abbrev Kernel2d := List (List ℚ)

/-- A `Conv2d.weight`: indexed `[outChannel][inChannel]`, each entry a 2-D
kernel. -/
abbrev ConvWeight := List (List Kernel2d)

/-- The selection `kernel[:, featureNum, :, :]` performed by `viz_features`:
for every output channel, the 2-D kernel at input-channel index
`featureNum`. -/
def vizKernelSelect (w : ConvWeight) (featureNum : Nat) : List Kernel2d :=
  w.map (fun outSlice => outSlice.getD featureNum [])

/-- The kernel data `viz_features` hands to `plot_data`, one entry per
captured convolutional layer (`kernels` is the list of the conv layers'
weights, in module order). -/
def vizKernelsData (kernels : List ConvWeight) (featureNum : Nat) :
    List (List Kernel2d) :=
  kernels.map (fun w => vizKernelSelect w featureNum)

/-- The claim's description ("that layer's weights restricted to the one
selected output-feature index"): in the `[out][in][kh][kw]` layout, restricting
to output-feature index `featureNum` means taking `w[featureNum]`. -/
def outputFeatureSlice (w : ConvWeight) (featureNum : Nat) : List Kernel2d :=
  w.getD featureNum []

/-- The amended description: the layer's weights restricted to the one
selected input-channel index `featureNum`. -/
def inputChannelSlice (w : ConvWeight) (featureNum : Nat) : List Kernel2d :=
  w.map (fun outSlice => outSlice.getD featureNum [])

/-- Claim C7, counterexample: on the concrete 2-output-channel,
2-input-channel weight `[[[[0]], [[1]]], [[[2]], [[3]]]]` with selected index
1, the data the script grids, `[[[1]], [[3]]]`, is not the weight restricted
to output-feature index 1, which is `[[[2]], [[3]]]`. -/
theorem viz_kernel_not_output_feature_slice :
    vizKernelSelect [[[[0]], [[1]]], [[[2]], [[3]]]] 1 ≠
      outputFeatureSlice [[[[0]], [[1]]], [[[2]], [[3]]]] 1 := by decide

/-- Claim C7, amended: for every captured convolutional layer, the kernel
weights that are normalized and gridded are that layer's weights restricted to
the one selected input-channel index (the `--feature-num` value), yielding one
tile per output filter of that layer. -/
theorem viz_kernel_is_input_channel_slice (kernels : List ConvWeight)
    (featureNum : Nat) :
    vizKernelsData kernels featureNum =
      kernels.map (fun w => inputChannelSlice w featureNum) ∧
    (vizKernelsData kernels featureNum).map List.length =
      kernels.map List.length := by
  constructor
  · rfl
  · simp [vizKernelsData, vizKernelSelect]

/-!
The normalization inside `plot_data`:
`maps = maps - np.amin(maps); maps = maps / np.amax(maps)`.
-/

/-- `np.amin` on a nonempty array (0 on the empty array, which numpy
rejects). -/
def amin : List ℚ → ℚ
  | [] => 0
  | x :: t => t.foldl min x

/-- `np.amax` on a nonempty array (0 on the empty array). -/
def amax : List ℚ → ℚ
  | [] => 0
  | x :: t => t.foldl max x

/-- The normalization of `plot_data` over the flattened values of one layer:
subtract the minimum, then divide by the maximum of the shifted values; the
division is undefined (`none`) when that divisor is zero. -/
def plotDataNormalize (maps : List ℚ) : Option (List ℚ) :=
  let shifted := maps.map (fun x => x - amin maps)
  let d := amax shifted
  if d = 0 then none else some (shifted.map (fun x => x / d))

lemma foldl_min_const (l : List ℚ) (a : ℚ) (h : ∀ x ∈ l, a ≤ x) :
    l.foldl min a = a := by
  induction l generalizing a with
  | nil => rfl
  | cons x t ih =>
      simp only [List.foldl_cons]
      rw [min_eq_left (h x (List.mem_cons_self x t))]
      exact ih a (fun y hy => h y (List.mem_cons_of_mem x hy))

lemma foldl_max_const (l : List ℚ) (a : ℚ) (h : ∀ x ∈ l, x ≤ a) :
    l.foldl max a = a := by
  induction l generalizing a with
  | nil => rfl
  | cons x t ih =>
      simp only [List.foldl_cons]
      rw [max_eq_left (h x (List.mem_cons_self x t))]
      exact ih a (fun y hy => h y (List.mem_cons_of_mem x hy))

lemma foldl_min_le_init (l : List ℚ) (a : ℚ) : l.foldl min a ≤ a := by
  induction l generalizing a with
  | nil => exact le_refl a
  | cons y t ih => exact le_trans (ih (min a y)) (min_le_left a y)

lemma foldl_min_le (l : List ℚ) (a : ℚ) (x : ℚ) (hx : x ∈ l) :
    l.foldl min a ≤ x := by
  induction l generalizing a with
  | nil => cases hx
  | cons y t ih =>
      simp only [List.foldl_cons]
      rcases List.mem_cons.mp hx with h | h
      · subst h
        calc t.foldl min (min a x) ≤ min a x := foldl_min_le_init t (min a x)
          _ ≤ x := min_le_right a x
      · exact ih (min a y) h

lemma init_le_foldl_max (l : List ℚ) (a : ℚ) : a ≤ l.foldl max a := by
  induction l generalizing a with
  | nil => exact le_refl a
  | cons y t ih => exact le_trans (le_max_left a y) (ih (max a y))

lemma foldl_le_max (l : List ℚ) (a : ℚ) (x : ℚ) (hx : x ∈ l) :
    x ≤ l.foldl max a := by
  induction l generalizing a with
  | nil => cases hx
  | cons y t ih =>
      simp only [List.foldl_cons]
      rcases List.mem_cons.mp hx with h | h
      · subst h
        calc x ≤ max a x := le_max_right a x
          _ ≤ t.foldl max (max a x) := init_le_foldl_max t (max a x)
      · exact ih (max a y) h

lemma amin_le (xs : List ℚ) (x : ℚ) (hx : x ∈ xs) : amin xs ≤ x := by
  cases xs with
  | nil => cases hx
  | cons h t =>
      rcases List.mem_cons.mp hx with hh | hh
      · subst hh
        exact foldl_min_le_init t x
      · exact foldl_min_le t h x hh

lemma le_amax (xs : List ℚ) (x : ℚ) (hx : x ∈ xs) : x ≤ amax xs := by
  cases xs with
  | nil => cases hx
  | cons h t =>
      rcases List.mem_cons.mp hx with hh | hh
      · subst hh
        exact init_le_foldl_max t x
      · exact foldl_le_max t h x hh

/-- Claim C10: the `plot_data` normalization subtracts the minimum and divides
by the maximum of the shifted values.  On every nonempty input whose entries
are all equal, that divisor is zero and the normalized output is undefined;
whenever the input contains two distinct entries, the divisor is nonzero, the
normalization is defined, and every normalized value lies in `[0, 1]`. -/
theorem plot_data_normalization (xs : List ℚ) :
    (∀ c : ℚ, xs ≠ [] → (∀ x ∈ xs, x = c) →
      amax (xs.map (fun x => x - amin xs)) = 0 ∧ plotDataNormalize xs = none) ∧
    (∀ a b : ℚ, a ∈ xs → b ∈ xs → a ≠ b →
      ∃ ys, plotDataNormalize xs = some ys ∧ ∀ y ∈ ys, 0 ≤ y ∧ y ≤ 1) := by
  constructor
  · intro c hne hall
    have hmin : amin xs = c := by
      cases xs with
      | nil => exact absurd rfl hne
      | cons h t =>
          have hh : h = c := hall h (List.mem_cons_self h t)
          subst hh
          exact foldl_min_const t h (fun y hy => (hall y (List.mem_cons_of_mem h hy)).ge)
    have hzero : amax (xs.map (fun x => x - amin xs)) = 0 := by
      cases xs with
      | nil => exact absurd rfl hne
      | cons h t =>
          simp only [List.map_cons, amax]
          have hh : h = c := hall h (List.mem_cons_self h t)
          rw [hmin, hh, sub_self]
          apply foldl_max_const
          intro y hy
          rcases List.mem_map.mp hy with ⟨z, hz, hzy⟩
          have hzc : z = c := hall z (List.mem_cons_of_mem h hz)
          rw [← hzy, hzc]
          simp
    refine ⟨hzero, ?_⟩
    simp [plotDataNormalize, hzero]
  · intro a b ha hb hab
    set m := amin xs with hm
    set shifted := xs.map (fun x => x - m) with hsh
    set d := amax shifted with hd
    have hsa : a - m ∈ shifted := List.mem_map_of_mem _ ha
    have hsb : b - m ∈ shifted := List.mem_map_of_mem _ hb
    have hnn : ∀ y ∈ shifted, 0 ≤ y := by
      intro y hy
      rcases List.mem_map.mp hy with ⟨z, hz, hzy⟩
      rw [← hzy]
      exact sub_nonneg.mpr (amin_le xs z hz)
    have hub : ∀ y ∈ shifted, y ≤ d := fun y hy => le_amax shifted y hy
    have hdpos : 0 < d := by
      rcases lt_or_le 0 d with h | h
      · exact h
      · exfalso
        have h1 : a - m = 0 :=
          le_antisymm (le_trans (hub _ hsa) h) (hnn _ hsa)
        have h2 : b - m = 0 :=
          le_antisymm (le_trans (hub _ hsb) h) (hnn _ hsb)
        exact hab (by linarith)
    refine ⟨shifted.map (fun x => x / d), ?_, ?_⟩
    · simp only [plotDataNormalize]
      rw [if_neg (ne_of_gt hdpos)]
    · intro y hy
      rcases List.mem_map.mp hy with ⟨s, hs, hsy⟩
      rw [← hsy]
      exact ⟨div_nonneg (hnn s hs) (le_of_lt hdpos),
        (div_le_one hdpos).mpr (hub s hs)⟩

/-- Witness for C10: the all-equal input `[3, 3]` has divisor zero and no
normalized output; the input `[0, 2]` has two distinct entries and normalizes
into `[0, 1]`. -/
theorem plot_data_normalization_witness :
    (amax ([(3 : ℚ), 3].map (fun x => x - amin [(3 : ℚ), 3])) = 0 ∧
      plotDataNormalize [(3 : ℚ), 3] = none) ∧
    (∃ ys, plotDataNormalize [(0 : ℚ), 2] = some ys ∧ ∀ y ∈ ys, 0 ≤ y ∧ y ≤ 1) :=
  ⟨(plot_data_normalization [(3 : ℚ), 3]).1 3 (by decide) (by decide),
   (plot_data_normalization [(0 : ℚ), 2]).2 0 2 (by decide) (by decide) (by decide)⟩

end MNIST
